import Mathlib

/-!
# Key-unwrap bridge (`airplay_crypto_jni.cpp`)

A shallow embedding of the JNI entry point
`Java_com_screencast_tv_airplay_mirror_AirPlayCryptoBridge_nativeDecryptFairPlayAesKey`
and the properties of its validation / copy / delegate / wrap protocol.

* Java byte arrays live in a heap (`JNIEnv.heap`); a `jbyteArray` is `nullptr` (`none`) or a
  reference (an index into the heap).
* The JNI runtime functions the entry point calls are modelled after the JNI specification.
  A call the JNI specification leaves undefined (a reference that is not a live array) or that
  raises a Java exception (a region outside the array) yields `none`.
* `playfair_decrypt` is external: it is a parameter, a function from the three buffers it is handed
  to their contents when it returns.  Every invocation is recorded in `Outcome.calls`.
* The local arrays `keyMsgBuf`, `encryptedBuf` and `out` are values of the call; each is written
  in full (`GetByteArrayRegion`, `memset`) before it is read, so their contents before that write
  do not appear.
* Not modelled: effects of the primitive outside its three buffers, and the exception the Java
  runtime may leave pending when `NewByteArray` fails.
-/

namespace AirPlayCrypto

/-! ## Data model -/

/-- JNI `jbyte`, a signed 8-bit integer, carried as an integer. -/
abbrev jbyte := Int

/-- JNI `jsize`. -/
abbrev jsize := Int

/-- C `unsigned char`, carried as a natural number that is read modulo 256. -/
abbrev uchar := Nat

/-- A C array `T buf[n]`: exactly `n` elements. -/
structure CArray (α : Type) (n : Nat) where
  elems : List α
  size_eq : elems.length = n

/-- JNI `jbyteArray`: `none` is `nullptr`, `some r` refers to the array stored at `heap[r]`. -/
abbrev jbyteArray := Option Nat

/-- The part of the Java runtime the entry point touches: the byte arrays of the Java heap, and
whether the allocator can construct a new byte array of a given length. -/
structure JNIEnv where
  heap : List (List jbyte)
  canAllocate : Nat → Bool

/-- Behaviour of the external primitive
`void playfair_decrypt(unsigned char* message, unsigned char* cipherText, unsigned char* keyOut)`:
from the contents of the three buffers on entry to their contents on return. -/
abbrev Playfair :=
  CArray uchar 164 → CArray uchar 72 → CArray uchar 16 →
    CArray uchar 164 × CArray uchar 72 × CArray uchar 16

/-- One invocation of `playfair_decrypt`: the buffers it was handed. -/
structure PlayfairCall where
  message : CArray uchar 164
  cipherText : CArray uchar 72
  keyOut : CArray uchar 16

/-- What a call of the entry point leaves behind: the Java runtime after the call, the invocations
of `playfair_decrypt` it made, and the returned reference. -/
structure Outcome where
  env : JNIEnv
  calls : List PlayfairCall
  result : jbyteArray

/-! ## Casts and C library -/

/-- The `unsigned char` read through `reinterpret_cast<unsigned char*>` from a `jbyte`. -/
def toUnsigned (b : Int) : Nat := (b % 256).toNat

/-- The `jbyte` read through `reinterpret_cast<jbyte*>` from an `unsigned char`. -/
def toSigned (u : Nat) : Int :=
  if u % 256 < 128 then ((u % 256 : Nat) : Int) else ((u % 256 : Nat) : Int) - 256

/-- Reading a whole buffer through a reinterpreted pointer. -/
def CArray.reinterpret {α β : Type} {n : Nat} (f : α → β) (buf : CArray α n) : CArray β n :=
  ⟨buf.elems.map f, by rw [List.length_map]; exact buf.size_eq⟩

/-- `std::memset(buf, c, sizeof(buf))` on an `unsigned char buf[n]`: every byte becomes `c`. -/
def memset (n : Nat) (c : Nat) : CArray uchar n :=
  ⟨List.replicate n (c % 256), List.length_replicate n (c % 256)⟩

/-! ## JNI runtime functions -/

/-- The array a reference denotes: `none` for `nullptr` and for a reference that is not live. -/
def JNIEnv.contents (env : JNIEnv) (array : jbyteArray) : Option (List jbyte) :=
  match array with
  | none => none
  | some r => env.heap[r]?

/-- JNI `GetArrayLength`. -/
def JNIEnv.GetArrayLength (env : JNIEnv) (array : jbyteArray) : Option jsize :=
  match env.contents array with
  | none => none
  | some a => some (a.length : Int)

/-- JNI `GetByteArrayRegion(array, start, len, buf)` with `buf` of `len` elements: the buffer after
the copy.  A region that leaves the array raises `ArrayIndexOutOfBoundsException`. -/
def JNIEnv.GetByteArrayRegion (env : JNIEnv) (array : jbyteArray) (start len : Nat) :
    Option (CArray jbyte len) :=
  match env.contents array with
  | none => none
  | some a =>
    if h : start + len ≤ a.length then
      some ⟨(a.drop start).take len, by rw [List.length_take, List.length_drop]; omega⟩
    else none

/-- JNI `NewByteArray(length)`: a fresh zero-filled array, or `nullptr` when the array cannot be
constructed. -/
def JNIEnv.NewByteArray (env : JNIEnv) (length : Nat) : JNIEnv × jbyteArray :=
  if env.canAllocate length then
    ({ env with heap := env.heap ++ [List.replicate length 0] }, some env.heap.length)
  else (env, none)

/-- JNI `SetByteArrayRegion(array, start, len, buf)` with `buf` of `len` elements. -/
def JNIEnv.SetByteArrayRegion (env : JNIEnv) (array : jbyteArray) (start len : Nat)
    (buf : CArray jbyte len) : Option JNIEnv :=
  match array, env.contents array with
  | some r, some a =>
    if start + len ≤ a.length then
      some { env with heap := env.heap.set r (a.take start ++ buf.elems ++ a.drop (start + len)) }
    else none
  | _, _ => none

/-! ## The entry point -/

/-- The JNI entry point of `airplay_crypto_jni.cpp` (the unused `jclass` argument is left out). -/
def Java_com_screencast_tv_airplay_mirror_AirPlayCryptoBridge_nativeDecryptFairPlayAesKey
    (playfair_decrypt : Playfair) (env : JNIEnv) (keyMsg encryptedKey : jbyteArray) :
    Option Outcome :=
  if keyMsg = none ∨ encryptedKey = none then some ⟨env, [], none⟩ else
  match env.GetArrayLength keyMsg, env.GetArrayLength encryptedKey with
  | some keyMsgLen, some encryptedKeyLen =>
    if keyMsgLen < 164 ∨ encryptedKeyLen < 72 then some ⟨env, [], none⟩ else
    match env.GetByteArrayRegion keyMsg 0 164, env.GetByteArrayRegion encryptedKey 0 72 with
    | some keyMsgBuf, some encryptedBuf =>
      let out := memset 16 0
      let call : PlayfairCall :=
        ⟨keyMsgBuf.reinterpret toUnsigned, encryptedBuf.reinterpret toUnsigned, out⟩
      let out := (playfair_decrypt call.message call.cipherText call.keyOut).2.2
      let (env, result) := env.NewByteArray 16
      if result = none then some ⟨env, [call], none⟩ else
      match env.SetByteArrayRegion result 0 16 (out.reinterpret toSigned) with
      | some env => some ⟨env, [call], result⟩
      | none => none
    | _, _ => none
  | _, _ => none

/-! ## Vocabulary of the statements -/

/-- A reference the JVM hands to a native method: `nullptr` or a live array of the heap. -/
def JNIEnv.valid (env : JNIEnv) (array : jbyteArray) : Prop :=
  array = none ∨ ∃ a, env.contents array = some a

/-- The bytes of the returned array: `none` when the entry point returned `nullptr`. -/
def Outcome.returned (o : Outcome) : Option (List jbyte) :=
  o.env.contents o.result

/-! ## Sample inputs -/

/-- A primitive that writes to none of its buffers. -/
def idlePrimitive : Playfair := fun message cipherText keyOut => (message, cipherText, keyOut)

/-- A primitive that overwrites both input buffers with `0xFF` and stores the sum of the first
message byte and the first ciphertext byte in every byte of `keyOut`. -/
def scribblingPrimitive : Playfair := fun message cipherText keyOut =>
  (message.reinterpret (fun _ => 255), cipherText.reinterpret (fun _ => 255),
    keyOut.reinterpret (fun _ => (message.elems.headD 0 + cipherText.elems.headD 0) % 256))

/-- A heap of five arrays of 164, 72, 163, 200 and 0 bytes, with an allocator that always
succeeds (`ok = true`) or always fails (`ok = false`). -/
def sampleEnv (ok : Bool) : JNIEnv :=
  ⟨[List.replicate 164 (-1), List.replicate 72 5, List.replicate 163 7,
    List.replicate 164 (-1) ++ List.replicate 36 9, []], fun _ => ok⟩

/-! ## Path lemmas -/

theorem CArray.eq_of_elems_eq {α : Type} {n : Nat} {a b : CArray α n} (h : a.elems = b.elems) :
    a = b := by
  cases a; cases b; cases h; rfl

theorem contents_some_ne_none {env : JNIEnv} {array : jbyteArray} {a : List jbyte}
    (h : env.contents array = some a) : array ≠ none := by
  rintro rfl; simp [JNIEnv.contents] at h

theorem toUnsigned_lt (b : Int) : toUnsigned b < 256 := by
  unfold toUnsigned; omega

theorem toUnsigned_emod (b : Int) : (toUnsigned b : Int) % 256 = b % 256 := by
  unfold toUnsigned; omega

theorem toSigned_range (u : Nat) : -128 ≤ toSigned u ∧ toSigned u < 128 := by
  unfold toSigned; split <;> omega

theorem toSigned_emod (u : Nat) : toSigned u % 256 = (u : Int) % 256 := by
  unfold toSigned; split <;> omega

/-- Either array absent: line 15 returns `nullptr` at once. -/
theorem bridge_null (pd : Playfair) (env : JNIEnv) (keyMsg encryptedKey : jbyteArray)
    (h : keyMsg = none ∨ encryptedKey = none) :
    Java_com_screencast_tv_airplay_mirror_AirPlayCryptoBridge_nativeDecryptFairPlayAesKey
      pd env keyMsg encryptedKey = some ⟨env, [], none⟩ := by
  unfold Java_com_screencast_tv_airplay_mirror_AirPlayCryptoBridge_nativeDecryptFairPlayAesKey
  rw [if_pos h]

/-- Both arrays live, one too short: line 19 returns `nullptr`. -/
theorem bridge_short (pd : Playfair) (env : JNIEnv) (keyMsg encryptedKey : jbyteArray)
    (ka ea : List jbyte) (hk : env.contents keyMsg = some ka)
    (he : env.contents encryptedKey = some ea) (h : ka.length < 164 ∨ ea.length < 72) :
    Java_com_screencast_tv_airplay_mirror_AirPlayCryptoBridge_nativeDecryptFairPlayAesKey
      pd env keyMsg encryptedKey = some ⟨env, [], none⟩ := by
  have h1 := contents_some_ne_none hk
  have h2 := contents_some_ne_none he
  have h3 : (ka.length : Int) < 164 ∨ (ea.length : Int) < 72 := by omega
  unfold Java_com_screencast_tv_airplay_mirror_AirPlayCryptoBridge_nativeDecryptFairPlayAesKey
  simp only [JNIEnv.GetArrayLength, hk, he]
  rw [if_neg (by simp [h1, h2]), if_pos h3]

/-- Both arrays live and long enough: the primitive is invoked once on the local copies and a
zeroed output buffer, and the outcome depends on the allocator alone. -/
theorem bridge_valid (pd : Playfair) (env : JNIEnv) (keyMsg encryptedKey : jbyteArray)
    (ka ea : List jbyte) (hk : env.contents keyMsg = some ka)
    (he : env.contents encryptedKey = some ea) (hkl : 164 ≤ ka.length) (hel : 72 ≤ ea.length) :
    ∃ call : PlayfairCall,
      call.message.elems = (ka.take 164).map toUnsigned ∧
      call.cipherText.elems = (ea.take 72).map toUnsigned ∧
      call.keyOut.elems = List.replicate 16 0 ∧
      Java_com_screencast_tv_airplay_mirror_AirPlayCryptoBridge_nativeDecryptFairPlayAesKey
        pd env keyMsg encryptedKey =
      some (if env.canAllocate 16 then
        ⟨{ env with heap := env.heap ++
            [(pd call.message call.cipherText call.keyOut).2.2.elems.map toSigned] },
          [call], some env.heap.length⟩
        else ⟨env, [call], none⟩) := by
  have h1 := contents_some_ne_none hk
  have h2 := contents_some_ne_none he
  have h3 : ¬ ((ka.length : Int) < 164 ∨ (ea.length : Int) < 72) := by omega
  refine ⟨⟨CArray.reinterpret toUnsigned ⟨ka.take 164, by rw [List.length_take]; omega⟩,
    CArray.reinterpret toUnsigned ⟨ea.take 72, by rw [List.length_take]; omega⟩, memset 16 0⟩,
    rfl, rfl, rfl, ?_⟩
  unfold Java_com_screencast_tv_airplay_mirror_AirPlayCryptoBridge_nativeDecryptFairPlayAesKey
  simp only [JNIEnv.GetArrayLength, JNIEnv.GetByteArrayRegion, hk, he]
  rw [if_neg (by simp [h1, h2]), if_neg h3]
  rw [dif_pos (by omega), dif_pos (by omega)]
  simp only [List.drop_zero]
  cases hc : env.canAllocate 16
  · simp [JNIEnv.NewByteArray, hc]
  · simp [JNIEnv.NewByteArray, hc, JNIEnv.SetByteArrayRegion, JNIEnv.contents, CArray.reinterpret]

/-- A call is determined by the contents of its three buffers. -/
theorem PlayfairCall.eq_of_buffers_eq {c d : PlayfairCall} (h1 : c.message.elems = d.message.elems)
    (h2 : c.cipherText.elems = d.cipherText.elems) (h3 : c.keyOut.elems = d.keyOut.elems) :
    c = d := by
  cases c; cases d
  simp only at h1 h2 h3
  rw [CArray.eq_of_elems_eq h1, CArray.eq_of_elems_eq h2, CArray.eq_of_elems_eq h3]

/-- Appending to the heap leaves every existing reference as it was. -/
theorem contents_append (env : JNIEnv) (x : List jbyte) (array : jbyteArray) (a : List jbyte)
    (h : env.contents array = some a) :
    JNIEnv.contents { env with heap := env.heap ++ [x] } array = some a := by
  cases array with
  | none => simp [JNIEnv.contents] at h
  | some r =>
    simp only [JNIEnv.contents] at h ⊢
    have hr : r < env.heap.length := by
      by_contra hn
      rw [List.getElem?_eq_none (by omega)] at h
      cases h
    rw [List.getElem?_append_left hr]; exact h

/-- The fresh reference denotes the appended array. -/
theorem contents_fresh (env : JNIEnv) (x : List jbyte) :
    JNIEnv.contents { env with heap := env.heap ++ [x] } (some env.heap.length) = some x := by
  simp [JNIEnv.contents]

/-- Every call on valid references ends on one of the two paths: turned away by the validation of
lines 15 and 19, or past it with exactly one invocation of the primitive. -/
theorem bridge_cases (pd : Playfair) (env : JNIEnv) (keyMsg encryptedKey : jbyteArray)
    (hk : env.valid keyMsg) (he : env.valid encryptedKey) :
    ((keyMsg = none ∨ encryptedKey = none ∨
        (∃ ka, env.contents keyMsg = some ka ∧ ka.length < 164) ∨
        (∃ ea, env.contents encryptedKey = some ea ∧ ea.length < 72)) ∧
      Java_com_screencast_tv_airplay_mirror_AirPlayCryptoBridge_nativeDecryptFairPlayAesKey
        pd env keyMsg encryptedKey = some ⟨env, [], none⟩) ∨
    (∃ ka ea, ∃ call : PlayfairCall,
      env.contents keyMsg = some ka ∧ env.contents encryptedKey = some ea ∧
      164 ≤ ka.length ∧ 72 ≤ ea.length ∧
      call.message.elems = (ka.take 164).map toUnsigned ∧
      call.cipherText.elems = (ea.take 72).map toUnsigned ∧
      call.keyOut.elems = List.replicate 16 0 ∧
      Java_com_screencast_tv_airplay_mirror_AirPlayCryptoBridge_nativeDecryptFairPlayAesKey
        pd env keyMsg encryptedKey =
      some (if env.canAllocate 16 then
        ⟨{ env with heap := env.heap ++
            [(pd call.message call.cipherText call.keyOut).2.2.elems.map toSigned] },
          [call], some env.heap.length⟩
        else ⟨env, [call], none⟩)) := by
  rcases hk with hk | ⟨ka, hk⟩
  · exact Or.inl ⟨Or.inl hk, bridge_null pd env _ _ (Or.inl hk)⟩
  rcases he with he | ⟨ea, he⟩
  · exact Or.inl ⟨Or.inr (Or.inl he), bridge_null pd env _ _ (Or.inr he)⟩
  by_cases h1 : ka.length < 164
  · exact Or.inl ⟨Or.inr (Or.inr (Or.inl ⟨ka, hk, h1⟩)),
      bridge_short pd env _ _ ka ea hk he (Or.inl h1)⟩
  by_cases h2 : ea.length < 72
  · exact Or.inl ⟨Or.inr (Or.inr (Or.inr ⟨ea, he, h2⟩)),
      bridge_short pd env _ _ ka ea hk he (Or.inr h2)⟩
  obtain ⟨call, c1, c2, c3, hf⟩ :=
    bridge_valid pd env _ _ ka ea hk he (by omega) (by omega)
  exact Or.inr ⟨ka, ea, call, hk, he, by omega, by omega, c1, c2, c3, hf⟩

/-- The full path evaluated on the sample heap: 164 bytes `0xFF`, 72 bytes `5`, an allocator that
succeeds and the scribbling primitive give the fresh reference `5` and sixteen bytes `4`. -/
theorem sample_full_path :
    Option.map Outcome.result
      (Java_com_screencast_tv_airplay_mirror_AirPlayCryptoBridge_nativeDecryptFairPlayAesKey
        scribblingPrimitive (sampleEnv true) (some 0) (some 1)) = some (some 5) ∧
    Option.map Outcome.returned
      (Java_com_screencast_tv_airplay_mirror_AirPlayCryptoBridge_nativeDecryptFairPlayAesKey
        scribblingPrimitive (sampleEnv true) (some 0) (some 1)) =
      some (some [4, 4, 4, 4, 4, 4, 4, 4, 4, 4, 4, 4, 4, 4, 4, 4]) := by
  obtain ⟨call, c1, c2, c3, hf⟩ :=
    bridge_valid scribblingPrimitive (sampleEnv true) (some 0) (some 1)
      (List.replicate 164 (-1)) (List.replicate 72 5) (by rfl) (by rfl) (by simp) (by simp)
  have h1 : call.message.elems.headD 0 = 255 := by rw [c1]; rfl
  have h2 : call.cipherText.elems.headD 0 = 5 := by rw [c2]; rfl
  have hc : (sampleEnv true).canAllocate 16 = true := rfl
  rw [if_pos hc] at hf
  rw [hf]
  refine ⟨rfl, ?_⟩
  show some (JNIEnv.contents _ (some (sampleEnv true).heap.length)) = _
  rw [contents_fresh]
  simp only [scribblingPrimitive, CArray.reinterpret, c3, h1, h2]
  rfl

/-! ## Claims -/

/-- C1: if `keyMsg` or `encryptedKey` is `nullptr`, the entry point returns `nullptr`, with the
heap untouched and the primitive not invoked, whatever the other argument, the primitive and the
allocator are. -/
theorem C1_absent_input_returns_null (pd : Playfair) (env : JNIEnv)
    (keyMsg encryptedKey : jbyteArray) (h : keyMsg = none ∨ encryptedKey = none) :
    Java_com_screencast_tv_airplay_mirror_AirPlayCryptoBridge_nativeDecryptFairPlayAesKey
      pd env keyMsg encryptedKey = some ⟨env, [], none⟩ :=
  bridge_null pd env keyMsg encryptedKey h

/-- C1 at a concrete input: a live key message, an absent encrypted key. -/
theorem C1_absent_input_returns_null_witness :
    ((some 0 : jbyteArray) = none ∨ (none : jbyteArray) = none) ∧
    Java_com_screencast_tv_airplay_mirror_AirPlayCryptoBridge_nativeDecryptFairPlayAesKey
      scribblingPrimitive (sampleEnv true) (some 0) none = some ⟨sampleEnv true, [], none⟩ :=
  ⟨Or.inr rfl, C1_absent_input_returns_null scribblingPrimitive (sampleEnv true) (some 0) none
    (Or.inr rfl)⟩

/-- C2: for two present arrays, if `keyMsg` has fewer than 164 bytes or `encryptedKey` has fewer
than 72 bytes, the entry point returns `nullptr` (heap untouched, primitive not invoked),
whatever the arrays hold and however long the other array is. -/
theorem C2_short_input_returns_null (pd : Playfair) (env : JNIEnv)
    (keyMsg encryptedKey : jbyteArray) (ka ea : List jbyte)
    (hk : env.contents keyMsg = some ka) (he : env.contents encryptedKey = some ea)
    (h : ka.length < 164 ∨ ea.length < 72) :
    Java_com_screencast_tv_airplay_mirror_AirPlayCryptoBridge_nativeDecryptFairPlayAesKey
      pd env keyMsg encryptedKey = some ⟨env, [], none⟩ :=
  bridge_short pd env keyMsg encryptedKey ka ea hk he h

/-- C2 at a concrete input: a key message of 163 bytes with an encrypted key of 72 bytes. -/
theorem C2_short_input_returns_null_witness :
    (sampleEnv true).contents (some 2) = some (List.replicate 163 7) ∧
    (sampleEnv true).contents (some 1) = some (List.replicate 72 5) ∧
    ((List.replicate 163 (7 : jbyte)).length < 164 ∨ (List.replicate 72 (5 : jbyte)).length < 72) ∧
    Java_com_screencast_tv_airplay_mirror_AirPlayCryptoBridge_nativeDecryptFairPlayAesKey
      idlePrimitive (sampleEnv true) (some 2) (some 1) = some ⟨sampleEnv true, [], none⟩ :=
  ⟨rfl, rfl, Or.inl (by simp),
    C2_short_input_returns_null idlePrimitive (sampleEnv true) (some 2) (some 1)
      (List.replicate 163 7) (List.replicate 72 5) rfl rfl (Or.inl (by simp))⟩

/-- C3, refuted as stated: with a key message of 164 bytes and an encrypted key of 72 bytes, both
present, the entry point returns `nullptr` when the allocation of the result array fails. -/
theorem C3_counterexample :
    (sampleEnv false).contents (some 0) = some (List.replicate 164 (-1)) ∧
    (sampleEnv false).contents (some 1) = some (List.replicate 72 5) ∧
    164 ≤ (List.replicate 164 (-1 : jbyte)).length ∧
    72 ≤ (List.replicate 72 (5 : jbyte)).length ∧
    Option.map Outcome.result
      (Java_com_screencast_tv_airplay_mirror_AirPlayCryptoBridge_nativeDecryptFairPlayAesKey
        idlePrimitive (sampleEnv false) (some 0) (some 1)) = some none := by
  refine ⟨rfl, rfl, by simp, by simp, ?_⟩
  obtain ⟨call, -, -, -, hf⟩ := bridge_valid idlePrimitive (sampleEnv false) (some 0) (some 1)
    (List.replicate 164 (-1)) (List.replicate 72 5) rfl rfl (by simp) (by simp)
  rw [hf]; rfl

/-- C3, amended: for inputs meeting the minimum lengths, when the allocation of the result array
succeeds, the entry point returns a reference that is not `nullptr` and denotes an array of
exactly 16 bytes. -/
theorem C3_valid_input_returns_16_bytes (pd : Playfair) (env : JNIEnv)
    (keyMsg encryptedKey : jbyteArray) (ka ea : List jbyte)
    (hk : env.contents keyMsg = some ka) (he : env.contents encryptedKey = some ea)
    (hkl : 164 ≤ ka.length) (hel : 72 ≤ ea.length) (halloc : env.canAllocate 16 = true) :
    ∃ o bytes,
      Java_com_screencast_tv_airplay_mirror_AirPlayCryptoBridge_nativeDecryptFairPlayAesKey
        pd env keyMsg encryptedKey = some o ∧
      o.result ≠ none ∧ o.returned = some bytes ∧ bytes.length = 16 := by
  obtain ⟨call, -, -, -, hf⟩ := bridge_valid pd env keyMsg encryptedKey ka ea hk he hkl hel
  rw [if_pos halloc] at hf
  refine ⟨_, _, hf, by simp, contents_fresh env _, ?_⟩
  rw [List.length_map]
  exact (pd call.message call.cipherText call.keyOut).2.2.size_eq

/-- C3 (amended) at a concrete input: arrays of exactly 164 and 72 bytes. -/
theorem C3_valid_input_returns_16_bytes_witness :
    (sampleEnv true).contents (some 0) = some (List.replicate 164 (-1)) ∧
    (sampleEnv true).contents (some 1) = some (List.replicate 72 5) ∧
    (sampleEnv true).canAllocate 16 = true ∧
    ∃ o bytes,
      Java_com_screencast_tv_airplay_mirror_AirPlayCryptoBridge_nativeDecryptFairPlayAesKey
        scribblingPrimitive (sampleEnv true) (some 0) (some 1) = some o ∧
      o.result ≠ none ∧ o.returned = some bytes ∧ bytes.length = 16 :=
  ⟨rfl, rfl, rfl,
    C3_valid_input_returns_16_bytes scribblingPrimitive (sampleEnv true) (some 0) (some 1)
      (List.replicate 164 (-1)) (List.replicate 72 5) rfl rfl (by simp) (by simp) rfl⟩

/-- C4: with both inputs present, at least 164 and 72 bytes long, and the result array allocated,
the primitive is invoked once, on the first 164 bytes of `keyMsg`, the first 72 bytes of
`encryptedKey` and a 16-byte all-zero output buffer, and the returned array holds what that
invocation leaves in the output buffer; across either cast a byte keeps its value modulo 256 and
lands in the range of the target type. -/
theorem C4_result_is_primitive_output (pd : Playfair) (env : JNIEnv)
    (keyMsg encryptedKey : jbyteArray) (ka ea : List jbyte)
    (hk : env.contents keyMsg = some ka) (he : env.contents encryptedKey = some ea)
    (hkl : 164 ≤ ka.length) (hel : 72 ≤ ea.length) (halloc : env.canAllocate 16 = true) :
    (∃ o, ∃ call : PlayfairCall,
      Java_com_screencast_tv_airplay_mirror_AirPlayCryptoBridge_nativeDecryptFairPlayAesKey
        pd env keyMsg encryptedKey = some o ∧
      o.calls = [call] ∧
      call.message.elems = (ka.take 164).map toUnsigned ∧
      call.cipherText.elems = (ea.take 72).map toUnsigned ∧
      call.keyOut.elems = List.replicate 16 0 ∧
      o.returned =
        some ((pd call.message call.cipherText call.keyOut).2.2.elems.map toSigned)) ∧
    (∀ b : Int, toUnsigned b < 256 ∧ (toUnsigned b : Int) % 256 = b % 256) ∧
    (∀ u : Nat, -128 ≤ toSigned u ∧ toSigned u < 128 ∧ toSigned u % 256 = (u : Int) % 256) := by
  obtain ⟨call, c1, c2, c3, hf⟩ := bridge_valid pd env keyMsg encryptedKey ka ea hk he hkl hel
  rw [if_pos halloc] at hf
  exact ⟨⟨_, call, hf, rfl, c1, c2, c3, contents_fresh env _⟩,
    fun b => ⟨toUnsigned_lt b, toUnsigned_emod b⟩,
    fun u => ⟨(toSigned_range u).1, (toSigned_range u).2, toSigned_emod u⟩⟩

/-- C4 at a concrete input: a 200-byte key message and a 72-byte encrypted key. -/
theorem C4_result_is_primitive_output_witness :
    (sampleEnv true).contents (some 3) =
      some (List.replicate 164 (-1) ++ List.replicate 36 9) ∧
    (sampleEnv true).contents (some 1) = some (List.replicate 72 5) ∧
    (sampleEnv true).canAllocate 16 = true ∧
    (∃ o, ∃ call : PlayfairCall,
      Java_com_screencast_tv_airplay_mirror_AirPlayCryptoBridge_nativeDecryptFairPlayAesKey
        scribblingPrimitive (sampleEnv true) (some 3) (some 1) = some o ∧
      o.calls = [call] ∧
      call.message.elems =
        ((List.replicate 164 (-1) ++ List.replicate 36 9).take 164).map toUnsigned ∧
      call.cipherText.elems = ((List.replicate 72 5).take 72).map toUnsigned ∧
      call.keyOut.elems = List.replicate 16 0 ∧
      o.returned =
        some ((scribblingPrimitive call.message call.cipherText call.keyOut).2.2.elems.map
          toSigned)) ∧
    (∀ b : Int, toUnsigned b < 256 ∧ (toUnsigned b : Int) % 256 = b % 256) ∧
    (∀ u : Nat, -128 ≤ toSigned u ∧ toSigned u < 128 ∧ toSigned u % 256 = (u : Int) % 256) :=
  ⟨rfl, rfl, rfl,
    C4_result_is_primitive_output scribblingPrimitive (sampleEnv true) (some 3) (some 1)
      (List.replicate 164 (-1) ++ List.replicate 36 9) (List.replicate 72 5) rfl rfl
      (by rw [List.length_append, List.length_replicate, List.length_replicate]; decide)
      (by simp) rfl⟩

/-- C5: truncation.  Two key messages that agree on their first 164 bytes and two encrypted keys
that agree on their first 72 bytes (all four long enough, in the same heap or in two heaps), with
the same primitive and the same allocator outcome, make the primitive see the same invocation and
yield the same result: both `nullptr`, or arrays with the same bytes; in one and the same runtime
the two outcomes are equal altogether. -/
theorem C5_truncation (pd : Playfair) (env₁ env₂ : JNIEnv)
    (keyMsg₁ encryptedKey₁ keyMsg₂ encryptedKey₂ : jbyteArray) (ka₁ ea₁ ka₂ ea₂ : List jbyte)
    (hk₁ : env₁.contents keyMsg₁ = some ka₁) (he₁ : env₁.contents encryptedKey₁ = some ea₁)
    (hk₂ : env₂.contents keyMsg₂ = some ka₂) (he₂ : env₂.contents encryptedKey₂ = some ea₂)
    (hkl₁ : 164 ≤ ka₁.length) (hel₁ : 72 ≤ ea₁.length)
    (hkl₂ : 164 ≤ ka₂.length) (hel₂ : 72 ≤ ea₂.length)
    (hka : ka₁.take 164 = ka₂.take 164) (hea : ea₁.take 72 = ea₂.take 72)
    (halloc : env₁.canAllocate 16 = env₂.canAllocate 16) :
    ∃ o₁ o₂,
      Java_com_screencast_tv_airplay_mirror_AirPlayCryptoBridge_nativeDecryptFairPlayAesKey
        pd env₁ keyMsg₁ encryptedKey₁ = some o₁ ∧
      Java_com_screencast_tv_airplay_mirror_AirPlayCryptoBridge_nativeDecryptFairPlayAesKey
        pd env₂ keyMsg₂ encryptedKey₂ = some o₂ ∧
      o₁.calls = o₂.calls ∧
      (o₁.result = none ↔ o₂.result = none) ∧
      o₁.returned = o₂.returned ∧
      (env₁ = env₂ → o₁ = o₂) := by
  obtain ⟨c, c1, c2, c3, hf₁⟩ :=
    bridge_valid pd env₁ keyMsg₁ encryptedKey₁ ka₁ ea₁ hk₁ he₁ hkl₁ hel₁
  obtain ⟨d, d1, d2, d3, hf₂⟩ :=
    bridge_valid pd env₂ keyMsg₂ encryptedKey₂ ka₂ ea₂ hk₂ he₂ hkl₂ hel₂
  have hcd : c = d :=
    PlayfairCall.eq_of_buffers_eq (by rw [c1, d1, hka]) (by rw [c2, d2, hea]) (by rw [c3, d3])
  subst hcd
  refine ⟨_, _, hf₁, hf₂, ?_⟩
  rw [← halloc]
  cases hc : env₁.canAllocate 16
  · refine ⟨rfl, Iff.rfl, ?_, ?_⟩
    · simp [Outcome.returned, JNIEnv.contents]
    · intro h; subst h; rfl
  · refine ⟨rfl, by simp, ?_, ?_⟩
    · simp only [if_true, Outcome.returned]
      rw [contents_fresh, contents_fresh]
    · intro h; subst h; rfl

/-- C5 at a concrete input: a 164-byte and a 200-byte key message with the same first 164 bytes,
and the same encrypted key. -/
theorem C5_truncation_witness :
    (List.replicate 164 (-1 : jbyte)).take 164 =
      (List.replicate 164 (-1) ++ List.replicate 36 9).take 164 ∧
    ∃ o₁ o₂,
      Java_com_screencast_tv_airplay_mirror_AirPlayCryptoBridge_nativeDecryptFairPlayAesKey
        scribblingPrimitive (sampleEnv true) (some 0) (some 1) = some o₁ ∧
      Java_com_screencast_tv_airplay_mirror_AirPlayCryptoBridge_nativeDecryptFairPlayAesKey
        scribblingPrimitive (sampleEnv true) (some 3) (some 1) = some o₂ ∧
      o₁.calls = o₂.calls ∧
      (o₁.result = none ↔ o₂.result = none) ∧
      o₁.returned = o₂.returned ∧
      (sampleEnv true = sampleEnv true → o₁ = o₂) :=
  ⟨by simp,
    C5_truncation scribblingPrimitive (sampleEnv true) (sampleEnv true) (some 0) (some 1)
      (some 3) (some 1) (List.replicate 164 (-1)) (List.replicate 72 5)
      (List.replicate 164 (-1) ++ List.replicate 36 9) (List.replicate 72 5)
      (by rfl) (by rfl) (by rfl) (by rfl) (by simp) (by simp)
      (by rw [List.length_append, List.length_replicate, List.length_replicate]; decide)
      (by simp) (by simp) rfl rfl⟩

/-- C6: output shape.  For every pair of valid references (absent, short or long enough), every
primitive and every allocator, the entry point returns, and what it returns is `nullptr` or a
reference to an array of exactly 16 bytes holding what the one invocation of the primitive left
in its output buffer. -/
theorem C6_output_shape (pd : Playfair) (env : JNIEnv) (keyMsg encryptedKey : jbyteArray)
    (hk : env.valid keyMsg) (he : env.valid encryptedKey) :
    ∃ o,
      Java_com_screencast_tv_airplay_mirror_AirPlayCryptoBridge_nativeDecryptFairPlayAesKey
        pd env keyMsg encryptedKey = some o ∧
      (o.result = none ∨
        ∃ call bytes, o.result ≠ none ∧ o.calls = [call] ∧ o.returned = some bytes ∧
          bytes.length = 16 ∧
          bytes = (pd call.message call.cipherText call.keyOut).2.2.elems.map toSigned) := by
  rcases bridge_cases pd env keyMsg encryptedKey hk he with ⟨-, hf⟩ |
    ⟨ka, ea, call, -, -, -, -, -, -, -, hf⟩
  · exact ⟨_, hf, Or.inl rfl⟩
  · cases hc : env.canAllocate 16
    · rw [hc] at hf
      exact ⟨_, hf, Or.inl rfl⟩
    · rw [hc, if_pos rfl] at hf
      refine ⟨_, hf, Or.inr ⟨call, _, by simp, rfl, contents_fresh env _, ?_, rfl⟩⟩
      rw [List.length_map]
      exact (pd call.message call.cipherText call.keyOut).2.2.size_eq

/-- C6 at a concrete input on the full path: a 164-byte key message of `0xFF` bytes, a 72-byte
encrypted key of `5` bytes, an allocator that succeeds and a primitive that fills its output
buffer with `(255 + 5) % 256 = 4`.  The returned reference is the fresh array `heap[5]`, which
holds sixteen bytes `4`: the array alternative of the shape is the one that holds. -/
theorem C6_output_shape_witness :
    (sampleEnv true).valid (some 0) ∧ (sampleEnv true).valid (some 1) ∧
    (∃ o,
      Java_com_screencast_tv_airplay_mirror_AirPlayCryptoBridge_nativeDecryptFairPlayAesKey
        scribblingPrimitive (sampleEnv true) (some 0) (some 1) = some o ∧
      (o.result = none ∨
        ∃ call bytes, o.result ≠ none ∧ o.calls = [call] ∧ o.returned = some bytes ∧
          bytes.length = 16 ∧
          bytes =
            (scribblingPrimitive call.message call.cipherText call.keyOut).2.2.elems.map
              toSigned)) ∧
    Option.map Outcome.result
      (Java_com_screencast_tv_airplay_mirror_AirPlayCryptoBridge_nativeDecryptFairPlayAesKey
        scribblingPrimitive (sampleEnv true) (some 0) (some 1)) = some (some 5) ∧
    Option.map Outcome.returned
      (Java_com_screencast_tv_airplay_mirror_AirPlayCryptoBridge_nativeDecryptFairPlayAesKey
        scribblingPrimitive (sampleEnv true) (some 0) (some 1)) =
      some (some [4, 4, 4, 4, 4, 4, 4, 4, 4, 4, 4, 4, 4, 4, 4, 4]) :=
  ⟨Or.inr ⟨_, rfl⟩, Or.inr ⟨_, rfl⟩,
    C6_output_shape scribblingPrimitive (sampleEnv true) (some 0) (some 1)
      (Or.inr ⟨_, rfl⟩) (Or.inr ⟨_, rfl⟩),
    sample_full_path.1, sample_full_path.2⟩

/-- C7: with both inputs long enough, if the allocation of the 16-byte result array fails, the
entry point returns `nullptr` and leaves the runtime as it found it (no array is created or
written); return value and runtime are those of every call the input validation turns away. -/
theorem C7_allocation_failure (pd : Playfair) (env : JNIEnv)
    (keyMsg encryptedKey : jbyteArray) (ka ea : List jbyte)
    (hk : env.contents keyMsg = some ka) (he : env.contents encryptedKey = some ea)
    (hkl : 164 ≤ ka.length) (hel : 72 ≤ ea.length) (halloc : env.canAllocate 16 = false) :
    ∃ o,
      Java_com_screencast_tv_airplay_mirror_AirPlayCryptoBridge_nativeDecryptFairPlayAesKey
        pd env keyMsg encryptedKey = some o ∧
      o.result = none ∧ o.env = env ∧
      ∀ keyMsg' encryptedKey' : jbyteArray,
        (keyMsg' = none ∨ encryptedKey' = none ∨
          ∃ ka' ea', env.contents keyMsg' = some ka' ∧ env.contents encryptedKey' = some ea' ∧
            (ka'.length < 164 ∨ ea'.length < 72)) →
        ∃ o',
          Java_com_screencast_tv_airplay_mirror_AirPlayCryptoBridge_nativeDecryptFairPlayAesKey
            pd env keyMsg' encryptedKey' = some o' ∧
          o'.result = o.result ∧ o'.env = o.env := by
  obtain ⟨call, -, -, -, hf⟩ := bridge_valid pd env keyMsg encryptedKey ka ea hk he hkl hel
  rw [halloc] at hf
  refine ⟨_, hf, rfl, rfl, ?_⟩
  intro keyMsg' encryptedKey' h
  rcases h with h | h | ⟨ka', ea', hk', he', h⟩
  · exact ⟨_, bridge_null pd env _ _ (Or.inl h), rfl, rfl⟩
  · exact ⟨_, bridge_null pd env _ _ (Or.inr h), rfl, rfl⟩
  · exact ⟨_, bridge_short pd env _ _ ka' ea' hk' he' h, rfl, rfl⟩

/-- C7 at a concrete input: valid arrays of 164 and 72 bytes and an allocator that fails. -/
theorem C7_allocation_failure_witness :
    (sampleEnv false).contents (some 0) = some (List.replicate 164 (-1)) ∧
    (sampleEnv false).contents (some 1) = some (List.replicate 72 5) ∧
    (sampleEnv false).canAllocate 16 = false ∧
    ∃ o,
      Java_com_screencast_tv_airplay_mirror_AirPlayCryptoBridge_nativeDecryptFairPlayAesKey
        scribblingPrimitive (sampleEnv false) (some 0) (some 1) = some o ∧
      o.result = none ∧ o.env = sampleEnv false ∧
      ∀ keyMsg' encryptedKey' : jbyteArray,
        (keyMsg' = none ∨ encryptedKey' = none ∨
          ∃ ka' ea', (sampleEnv false).contents keyMsg' = some ka' ∧
            (sampleEnv false).contents encryptedKey' = some ea' ∧
            (ka'.length < 164 ∨ ea'.length < 72)) →
        ∃ o',
          Java_com_screencast_tv_airplay_mirror_AirPlayCryptoBridge_nativeDecryptFairPlayAesKey
            scribblingPrimitive (sampleEnv false) keyMsg' encryptedKey' = some o' ∧
          o'.result = o.result ∧ o'.env = o.env :=
  ⟨rfl, rfl, rfl,
    C7_allocation_failure scribblingPrimitive (sampleEnv false) (some 0) (some 1)
      (List.replicate 164 (-1)) (List.replicate 72 5) (by rfl) (by rfl) (by simp) (by simp) rfl⟩

/-- C8, refuted as stated: on a valid input pair (200 and 72 bytes) a primitive that writes
nothing does not make the entry point return 16 zero bytes when the allocation of the result
array fails; it returns `nullptr`. -/
theorem C8_counterexample :
    (sampleEnv false).contents (some 3) =
      some (List.replicate 164 (-1) ++ List.replicate 36 9) ∧
    (sampleEnv false).contents (some 1) = some (List.replicate 72 5) ∧
    (∀ message cipherText keyOut, (idlePrimitive message cipherText keyOut).2.2 = keyOut) ∧
    Option.map Outcome.returned
      (Java_com_screencast_tv_airplay_mirror_AirPlayCryptoBridge_nativeDecryptFairPlayAesKey
        idlePrimitive (sampleEnv false) (some 3) (some 1)) = some none := by
  refine ⟨rfl, rfl, fun _ _ _ => rfl, ?_⟩
  obtain ⟨call, -, -, -, hf⟩ := bridge_valid idlePrimitive (sampleEnv false) (some 3) (some 1)
    (List.replicate 164 (-1) ++ List.replicate 36 9) (List.replicate 72 5) (by rfl) (by rfl)
    (by rw [List.length_append, List.length_replicate, List.length_replicate]; decide) (by simp)
  rw [hf]; rfl

/-- C8, amended: the output buffer handed to the primitive is 16 zero bytes, so on a valid input
pair, when the allocation of the result array succeeds, every byte of the output buffer the
primitive leaves as it found it is 0 in the returned array, and if the primitive leaves the whole
buffer as it found it the returned array is 16 zero bytes. -/
theorem C8_zero_initialised_output (pd : Playfair) (env : JNIEnv)
    (keyMsg encryptedKey : jbyteArray) (ka ea : List jbyte)
    (hk : env.contents keyMsg = some ka) (he : env.contents encryptedKey = some ea)
    (hkl : 164 ≤ ka.length) (hel : 72 ≤ ea.length) (halloc : env.canAllocate 16 = true) :
    ∃ o, ∃ call : PlayfairCall, ∃ bytes,
      Java_com_screencast_tv_airplay_mirror_AirPlayCryptoBridge_nativeDecryptFairPlayAesKey
        pd env keyMsg encryptedKey = some o ∧
      o.calls = [call] ∧ call.keyOut.elems = List.replicate 16 0 ∧
      o.returned = some bytes ∧ bytes.length = 16 ∧
      (∀ i, i < 16 →
        (pd call.message call.cipherText call.keyOut).2.2.elems[i]? = call.keyOut.elems[i]? →
        bytes[i]? = some 0) ∧
      ((pd call.message call.cipherText call.keyOut).2.2 = call.keyOut →
        bytes = List.replicate 16 0) := by
  obtain ⟨call, -, -, c3, hf⟩ := bridge_valid pd env keyMsg encryptedKey ka ea hk he hkl hel
  rw [if_pos halloc] at hf
  refine ⟨_, call, _, hf, rfl, c3, contents_fresh env _, ?_, ?_, ?_⟩
  · rw [List.length_map]
    exact (pd call.message call.cipherText call.keyOut).2.2.size_eq
  · intro i hi h
    rw [List.getElem?_map, h, c3, List.getElem?_replicate, if_pos hi]
    rfl
  · intro h
    rw [h, c3, List.map_replicate]
    rfl

/-- C8 (amended) at a concrete input, with a primitive that writes nothing. -/
theorem C8_zero_initialised_output_witness :
    (sampleEnv true).contents (some 0) = some (List.replicate 164 (-1)) ∧
    (sampleEnv true).contents (some 1) = some (List.replicate 72 5) ∧
    (sampleEnv true).canAllocate 16 = true ∧
    ∃ o, ∃ call : PlayfairCall, ∃ bytes,
      Java_com_screencast_tv_airplay_mirror_AirPlayCryptoBridge_nativeDecryptFairPlayAesKey
        idlePrimitive (sampleEnv true) (some 0) (some 1) = some o ∧
      o.calls = [call] ∧ call.keyOut.elems = List.replicate 16 0 ∧
      o.returned = some bytes ∧ bytes.length = 16 ∧
      (∀ i, i < 16 →
        (idlePrimitive call.message call.cipherText call.keyOut).2.2.elems[i]? =
          call.keyOut.elems[i]? →
        bytes[i]? = some 0) ∧
      ((idlePrimitive call.message call.cipherText call.keyOut).2.2 = call.keyOut →
        bytes = List.replicate 16 0) :=
  ⟨rfl, rfl, rfl,
    C8_zero_initialised_output idlePrimitive (sampleEnv true) (some 0) (some 1)
      (List.replicate 164 (-1)) (List.replicate 72 5) (by rfl) (by rfl) (by simp) (by simp) rfl⟩

/-- C9: frame.  On every path the arrays `keyMsg` and `encryptedKey` denote after the call are
the arrays they denoted before it, as is every array that was in the heap; every invocation of
the primitive is handed a 164-byte and a 72-byte local buffer holding copies of the leading
bytes, so whatever a primitive writes to its input buffers stays out of the heap. -/
theorem C9_inputs_not_mutated (pd : Playfair) (env : JNIEnv) (keyMsg encryptedKey : jbyteArray)
    (hk : env.valid keyMsg) (he : env.valid encryptedKey) :
    ∃ o,
      Java_com_screencast_tv_airplay_mirror_AirPlayCryptoBridge_nativeDecryptFairPlayAesKey
        pd env keyMsg encryptedKey = some o ∧
      o.env.contents keyMsg = env.contents keyMsg ∧
      o.env.contents encryptedKey = env.contents encryptedKey ∧
      (∀ r, r < env.heap.length → o.env.heap[r]? = env.heap[r]?) ∧
      ∀ call ∈ o.calls,
        call.message.elems.length = 164 ∧ call.cipherText.elems.length = 72 ∧
        ∃ ka ea, env.contents keyMsg = some ka ∧ env.contents encryptedKey = some ea ∧
          call.message.elems = (ka.take 164).map toUnsigned ∧
          call.cipherText.elems = (ea.take 72).map toUnsigned := by
  rcases bridge_cases pd env keyMsg encryptedKey hk he with ⟨-, hf⟩ |
    ⟨ka, ea, call, hka, hea, -, -, c1, c2, -, hf⟩
  · exact ⟨_, hf, rfl, rfl, fun _ _ => rfl, fun c hc => by simp at hc⟩
  · have hcalls : ∀ c ∈ [call],
        c.message.elems.length = 164 ∧ c.cipherText.elems.length = 72 ∧
        ∃ ka ea, env.contents keyMsg = some ka ∧ env.contents encryptedKey = some ea ∧
          c.message.elems = (ka.take 164).map toUnsigned ∧
          c.cipherText.elems = (ea.take 72).map toUnsigned := by
      intro c hc
      rw [List.mem_singleton] at hc
      subst hc
      exact ⟨c.message.size_eq, c.cipherText.size_eq, ka, ea, hka, hea, c1, c2⟩
    cases hc : env.canAllocate 16
    · rw [hc] at hf
      exact ⟨_, hf, rfl, rfl, fun _ _ => rfl, hcalls⟩
    · rw [hc, if_pos rfl] at hf
      refine ⟨_, hf, ?_, ?_, ?_, hcalls⟩
      · rw [hka]; exact contents_append env _ keyMsg ka hka
      · rw [hea]; exact contents_append env _ encryptedKey ea hea
      · intro r hr
        exact List.getElem?_append_left hr

/-- C9 at a concrete input: valid arrays and a primitive that overwrites its input buffers. -/
theorem C9_inputs_not_mutated_witness :
    (sampleEnv true).valid (some 0) ∧ (sampleEnv true).valid (some 1) ∧
    ∃ o,
      Java_com_screencast_tv_airplay_mirror_AirPlayCryptoBridge_nativeDecryptFairPlayAesKey
        scribblingPrimitive (sampleEnv true) (some 0) (some 1) = some o ∧
      o.env.contents (some 0) = (sampleEnv true).contents (some 0) ∧
      o.env.contents (some 1) = (sampleEnv true).contents (some 1) ∧
      (∀ r, r < (sampleEnv true).heap.length → o.env.heap[r]? = (sampleEnv true).heap[r]?) ∧
      ∀ call ∈ o.calls,
        call.message.elems.length = 164 ∧ call.cipherText.elems.length = 72 ∧
        ∃ ka ea, (sampleEnv true).contents (some 0) = some ka ∧
          (sampleEnv true).contents (some 1) = some ea ∧
          call.message.elems = (ka.take 164).map toUnsigned ∧
          call.cipherText.elems = (ea.take 72).map toUnsigned :=
  ⟨Or.inr ⟨_, rfl⟩, Or.inr ⟨_, rfl⟩,
    C9_inputs_not_mutated scribblingPrimitive (sampleEnv true) (some 0) (some 1)
      (Or.inr ⟨_, rfl⟩) (Or.inr ⟨_, rfl⟩)⟩

/-- C10: for valid references the entry point returns, and it returns `nullptr` exactly when
`keyMsg` is absent, or `encryptedKey` is absent, or `keyMsg` has fewer than 164 bytes, or
`encryptedKey` has fewer than 72 bytes, or the allocation of the result array fails; the
primitive is invoked (once) exactly when none of the first four holds; no length is too long. -/
theorem C10_absence_characterisation (pd : Playfair) (env : JNIEnv)
    (keyMsg encryptedKey : jbyteArray)
    (hk : env.valid keyMsg) (he : env.valid encryptedKey) :
    ∃ o,
      Java_com_screencast_tv_airplay_mirror_AirPlayCryptoBridge_nativeDecryptFairPlayAesKey
        pd env keyMsg encryptedKey = some o ∧
      (o.result = none ↔
        (keyMsg = none ∨ encryptedKey = none ∨
          (∃ ka, env.contents keyMsg = some ka ∧ ka.length < 164) ∨
          (∃ ea, env.contents encryptedKey = some ea ∧ ea.length < 72) ∨
          env.canAllocate 16 = false)) ∧
      (o.calls ≠ [] ↔
        ¬ (keyMsg = none ∨ encryptedKey = none ∨
          (∃ ka, env.contents keyMsg = some ka ∧ ka.length < 164) ∨
          (∃ ea, env.contents encryptedKey = some ea ∧ ea.length < 72))) ∧
      o.calls.length ≤ 1 ∧
      (∀ ka ea, env.contents keyMsg = some ka → env.contents encryptedKey = some ea →
        164 ≤ ka.length → 72 ≤ ea.length → env.canAllocate 16 = true → o.result ≠ none) := by
  rcases bridge_cases pd env keyMsg encryptedKey hk he with ⟨h4, hf⟩ |
    ⟨ka, ea, call, hka, hea, hkl, hel, -, -, -, hf⟩
  · refine ⟨_, hf, ?_, ?_, by simp, ?_⟩
    · constructor
      · intro _
        rcases h4 with h | h | h | h
        · exact Or.inl h
        · exact Or.inr (Or.inl h)
        · exact Or.inr (Or.inr (Or.inl h))
        · exact Or.inr (Or.inr (Or.inr (Or.inl h)))
      · intro _; rfl
    · constructor
      · intro h; exact absurd rfl h
      · intro h; exact absurd h4 h
    · intro ka ea hka hea hkl hel _
      rcases h4 with h | h | ⟨ka', h, hl⟩ | ⟨ea', h, hl⟩
      · exact absurd h (contents_some_ne_none hka)
      · exact absurd h (contents_some_ne_none hea)
      · rw [hka] at h; cases h; omega
      · rw [hea] at h; cases h; omega
  · have hn4 : ¬ (keyMsg = none ∨ encryptedKey = none ∨
          (∃ ka, env.contents keyMsg = some ka ∧ ka.length < 164) ∨
          (∃ ea, env.contents encryptedKey = some ea ∧ ea.length < 72)) := by
      rintro (h | h | ⟨ka', h, hl⟩ | ⟨ea', h, hl⟩)
      · exact contents_some_ne_none hka h
      · exact contents_some_ne_none hea h
      · rw [hka] at h; cases h; omega
      · rw [hea] at h; cases h; omega
    cases hc : env.canAllocate 16
    · rw [hc] at hf
      refine ⟨_, hf, ?_, ?_, by simp, ?_⟩
      · exact ⟨fun _ => Or.inr (Or.inr (Or.inr (Or.inr rfl))), fun _ => rfl⟩
      · exact ⟨fun _ => hn4, fun _ => by simp⟩
      · intro _ _ _ _ _ _ h; cases h
    · rw [hc, if_pos rfl] at hf
      refine ⟨_, hf, ?_, ?_, by simp, ?_⟩
      · constructor
        · intro h; simp at h
        · rintro (h | h | h | h | h)
          · exact absurd (Or.inl h) hn4
          · exact absurd (Or.inr (Or.inl h)) hn4
          · exact absurd (Or.inr (Or.inr (Or.inl h))) hn4
          · exact absurd (Or.inr (Or.inr (Or.inr h))) hn4
          · cases h
      · exact ⟨fun _ => hn4, fun _ => by simp⟩
      · intro _ _ _ _ _ _ _; simp

/-- C10 at a concrete input: a 200-byte key message and a 72-byte encrypted key. -/
theorem C10_absence_characterisation_witness :
    (sampleEnv true).valid (some 3) ∧ (sampleEnv true).valid (some 1) ∧
    ∃ o,
      Java_com_screencast_tv_airplay_mirror_AirPlayCryptoBridge_nativeDecryptFairPlayAesKey
        idlePrimitive (sampleEnv true) (some 3) (some 1) = some o ∧
      (o.result = none ↔
        ((some 3 : jbyteArray) = none ∨ (some 1 : jbyteArray) = none ∨
          (∃ ka, (sampleEnv true).contents (some 3) = some ka ∧ ka.length < 164) ∨
          (∃ ea, (sampleEnv true).contents (some 1) = some ea ∧ ea.length < 72) ∨
          (sampleEnv true).canAllocate 16 = false)) ∧
      (o.calls ≠ [] ↔
        ¬ ((some 3 : jbyteArray) = none ∨ (some 1 : jbyteArray) = none ∨
          (∃ ka, (sampleEnv true).contents (some 3) = some ka ∧ ka.length < 164) ∨
          (∃ ea, (sampleEnv true).contents (some 1) = some ea ∧ ea.length < 72))) ∧
      o.calls.length ≤ 1 ∧
      (∀ ka ea, (sampleEnv true).contents (some 3) = some ka →
        (sampleEnv true).contents (some 1) = some ea →
        164 ≤ ka.length → 72 ≤ ea.length → (sampleEnv true).canAllocate 16 = true →
        o.result ≠ none) :=
  ⟨Or.inr ⟨_, rfl⟩, Or.inr ⟨_, rfl⟩,
    C10_absence_characterisation idlePrimitive (sampleEnv true) (some 3) (some 1)
      (Or.inr ⟨_, rfl⟩) (Or.inr ⟨_, rfl⟩)⟩

end AirPlayCrypto
